import Mathlib

/-!
Verification development for a multi-client TCP chat system
(chat_server.py and chat_client.py).

Shallow embedding conventions: a socket is modelled by a natural-number
connection identifier; the network is modelled by explicit oracles telling
which send calls fail; each Python function becomes a pure Lean function
over those inputs, producing a trace of the externally visible actions it
performs.  Timestamps are opaque string parameters (the code obtains them
from the clock).
-/

namespace Chat

/-- One entry of the server's global clients list: the code stores the tuple
(connection socket, username); the socket is modelled by its identifier. -/
structure Client where
  conn : Nat
  username : String
deriving DecidableEq, Repr

/-- Outcome of one sendall call on a socket: success, or one of the errors
the code catches (BrokenPipeError, ConnectionResetError, OSError). -/
inductive SendResult where
  | ok
  | err
deriving DecidableEq, Repr

/-- The whitespace characters removed by a Python str.strip() call with no
argument, for the ASCII payloads this protocol exchanges. -/
def pySpace (c : Char) : Bool :=
  c = ' ' || c = '\t' || c = '\n' || c = '\r' || c = '\x0b' || c = '\x0c'

/-- Python str.strip(): drop leading and trailing whitespace. -/
def pyStrip (s : String) : String :=
  String.mk (((s.data.dropWhile pySpace).reverse.dropWhile pySpace).reverse)

/-- Python str.lower() on the ASCII payloads this protocol exchanges. -/
def pyLower (s : String) : String :=
  String.mk (s.data.map Char.toLower)

/-- One delivery attempt made by broadcast: the target connection, the bytes
handed to sendall, and whether sendall succeeded. -/
structure Attempt where
  conn : Nat
  bytes : String
  result : SendResult
deriving DecidableEq, Repr

/-- broadcast from chat_server.py (lines 25-45): under the clients lock,
iterate the clients list; skip any entry whose socket equals sender_conn;
for every other entry attempt to send message + newline with sendall; a
send failure is swallowed (except clause does pass) and iteration
continues with the remaining clients.  The function never mutates the
clients list. -/
def broadcast (cs : List Client) (message : String) (sender_conn : Option Nat)
    (net : Nat → SendResult) : List Attempt :=
  match cs with
  | [] => []
  | c :: rest =>
      if some c.conn = sender_conn then
        broadcast rest message sender_conn net
      else
        { conn := c.conn, bytes := message ++ "\n", result := net c.conn } ::
          broadcast rest message sender_conn net

/-- broadcast viewed together with the clients list it leaves behind: the
function body only reads the list, so the registry after the call is the
registry before it. -/
def broadcastST (cs : List Client) (message : String) (sender_conn : Option Nat)
    (net : Nat → SendResult) : List Client × List Attempt :=
  (cs, broadcast cs message sender_conn net)

/-- Join notice built at chat_server.py line 83. -/
def joinMsg (ts u : String) : String :=
  ts ++ " " ++ u ++ " has joined the chat!\n"

/-- Welcome line built at chat_server.py line 88. -/
def welcomeMsg (ts u : String) : String :=
  ts ++ " Welcome to the chat, " ++ u ++ "!\n"

/-- Relay line built at chat_server.py line 109 (no trailing newline in the
format string itself). -/
def relayMsg (ts u body : String) : String :=
  ts ++ " " ++ u ++ ": " ++ body

/-- Departure notice built at chat_server.py line 145. -/
def leaveMsg (ts u : String) : String :=
  ts ++ " " ++ u ++ " has left the chat.\n"

/-- Username validation from chat_server.py lines 72-76: strip the received
text; if the result is empty, substitute the guest name derived from the
peer's ephemeral port. -/
def chooseUsername (raw : String) (peerPort : Nat) : String :=
  let u := pyStrip raw
  if u = "" then "Guest_" ++ toString peerPort else u

/-- Registry removal from chat_server.py lines 138-141: rebuild the clients
list keeping every entry whose socket differs from the departing one. -/
def deregister (conn : Nat) (cs : List Client) : List Client :=
  cs.filter (fun c => decide (c.conn ≠ conn))

/-- The client-side termination keywords checked at chat_client.py line 99. -/
def terminationKeywords : List String :=
  ["quit", "exit", "q"]

/-- send_messages from chat_client.py (lines 83-113), driven by the list of
lines the local user types and by a network oracle for sendall outcomes.
Returns the list of sendall attempts (each the exact string handed to
sendall, with its outcome) and the final value of the running flag.  A
line whose lowercased form is a termination keyword stops the loop and
clears the flag before any send; a line empty after strip is not sent and
the loop continues; any other line is sent verbatim, and a send failure
clears the flag and stops the loop. -/
def send_messages (lines : List String) (net : String → SendResult) :
    List (String × SendResult) × Bool :=
  match lines with
  | [] => ([], true)
  | m :: rest =>
      if terminationKeywords.contains (pyLower m) then
        ([], false)
      else if pyStrip m = "" then
        send_messages rest net
      else
        match net m with
        | SendResult.ok =>
            let r := send_messages rest net
            ((m, SendResult.ok) :: r.1, r.2)
        | SendResult.err => ([(m, SendResult.err)], false)

/-- Outcome of one recv call as seen by handle_client: the peer closed the
stream (empty bytes), data that decodes to a string, a UnicodeDecodeError,
or one of the transport exceptions the handler catches. -/
inductive RecvResult where
  | closed
  | data (s : String)
  | decodeErr
  | reset
  | aborted
  | osErr
  | otherErr
deriving DecidableEq, Repr

/-- Why the ACTIVE receive loop of handle_client ended. -/
inductive ExitReason where
  | gracefulClose
  | reset
  | aborted
  | osError
  | otherError
deriving DecidableEq, Repr

/-- Externally visible actions of a session handler, in program order. -/
inductive Action where
  | register (conn : Nat) (username : String)
  | broadcastMsg (message : String) (excluded : Option Nat)
  | sendWelcome (conn : Nat) (bytes : String)
  | logDecodeError
  | deregisterSelf (conn : Nat)
  | closeSocket (conn : Nat)
deriving DecidableEq, Repr

/-- The ACTIVE loop of handle_client (chat_server.py lines 92-118), driven
by the list of recv outcomes.  Returns the actions performed and, when the
loop ended, why; a none reason means the script ran out while the handler
was still parked in recv.  An empty decoded string breaks the loop (peer
closed); a string that strips to empty is skipped; a UnicodeDecodeError is
logged and the loop continues; other content is formatted as the relay
line and broadcast excluding the sender; the transport exceptions escape
the loop to the outer handlers. -/
def activeLoop (conn : Nat) (username ts : String) :
    List RecvResult → List Action × Option ExitReason
  | [] => ([], none)
  | RecvResult.closed :: _ => ([], some ExitReason.gracefulClose)
  | RecvResult.data s :: rest =>
      if s = "" then ([], some ExitReason.gracefulClose)
      else if pyStrip s = "" then activeLoop conn username ts rest
      else
        let r := activeLoop conn username ts rest
        (Action.broadcastMsg (relayMsg ts username (pyStrip s)) (some conn) :: r.1, r.2)
  | RecvResult.decodeErr :: rest =>
      let r := activeLoop conn username ts rest
      (Action.logDecodeError :: r.1, r.2)
  | RecvResult.reset :: _ => ([], some ExitReason.reset)
  | RecvResult.aborted :: _ => ([], some ExitReason.aborted)
  | RecvResult.osErr :: _ => ([], some ExitReason.osError)
  | RecvResult.otherErr :: _ => ([], some ExitReason.otherError)

/-- The finally block of handle_client (chat_server.py lines 136-150):
remove self from the clients list, then, only when a username was
assigned, broadcast the departure notice with no excluded sender, then
close the socket. -/
def finalize (conn : Nat) (ts : String) (username : Option String) : List Action :=
  match username with
  | some u =>
      [Action.deregisterSelf conn,
       Action.broadcastMsg (leaveMsg ts u) none,
       Action.closeSocket conn]
  | none => [Action.deregisterSelf conn, Action.closeSocket conn]

/-- Inputs driving one run of handle_client: whether the prompt sendall
succeeds, the outcome of the username recv, whether the welcome sendall
succeeds, and the recv outcomes of the ACTIVE loop. -/
structure Script where
  promptSendOk : Bool
  usernameRecv : RecvResult
  welcomeSendOk : Bool
  chunks : List RecvResult
deriving Repr

/-- The username the handshake assigns, when it completes: a recv that
returns data strips it and falls back to the guest name when empty; a recv
that returns empty bytes decodes to the empty string and likewise falls
back to the guest name; an exception leaves the username unassigned. -/
def handshakeUsername (sc : Script) (peerPort : Nat) : Option String :=
  match sc.usernameRecv with
  | RecvResult.data raw => some (chooseUsername raw peerPort)
  | RecvResult.closed => some (chooseUsername "" peerPort)
  | _ => none

/-- The result of one handle_client run: its action trace, the username
variable at the end, and whether the handler returned (false means it is
still parked in a blocking recv). -/
structure HandlerRun where
  trace : List Action
  username : Option String
  finished : Bool
deriving Repr

/-- Continuation of handle_client after a successful handshake
(chat_server.py lines 79-118): register, broadcast the join notice
excluding self, send the welcome line (whose sendall may raise OSError and
jump to the finally block), then run the ACTIVE loop and fall into the
finally block when the loop exits. -/
def handshakeDone (conn : Nat) (ts u : String) (sc : Script) : HandlerRun :=
  let pre : List Action :=
    [Action.register conn u, Action.broadcastMsg (joinMsg ts u) (some conn)]
  if sc.welcomeSendOk then
    let r := activeLoop conn u ts sc.chunks
    match r.2 with
    | some _ =>
        ⟨pre ++ [Action.sendWelcome conn (welcomeMsg ts u)] ++ r.1 ++
          finalize conn ts (some u), some u, true⟩
    | none =>
        ⟨pre ++ [Action.sendWelcome conn (welcomeMsg ts u)] ++ r.1, some u, false⟩
  else
    ⟨pre ++ finalize conn ts (some u), some u, true⟩

/-- handle_client from chat_server.py (lines 58-150).  A failing prompt
sendall or an exception during the username recv jumps to the finally
block with the username still unassigned; otherwise the handshake
completes and the handler proceeds to the ACTIVE loop. -/
def handle_client (conn peerPort : Nat) (ts : String) (sc : Script) : HandlerRun :=
  if sc.promptSendOk then
    match handshakeUsername sc peerPort with
    | some u => handshakeDone conn ts u sc
    | none => ⟨finalize conn ts none, none, true⟩
  else
    ⟨finalize conn ts none, none, true⟩

/-- Lifecycle phase of one handler: before registration, registered, or
finished. -/
inductive Phase where
  | pre
  | active
  | done
deriving DecidableEq, Repr

/-- Global server state for the registry invariant: the clients list, the
phase of each handler (indexed by its connection identifier), and the two
event counters of the spec. -/
structure SrvState where
  reg : List Client
  phase : Nat → Phase
  handshakes : Nat
  teardowns : Nat

/-- Server start: empty clients list, every handler still unstarted. -/
def initState : SrvState :=
  ⟨[], fun _ => Phase.pre, 0, 0⟩

/-- Interleaved registry events, each performed under the clients lock.
A handshake completion appends the new client (chat_server.py lines
79-80); a teardown of a registered handler runs the removal of lines
138-141; an abort is the finally block of a handler that failed before
registration, whose removal is a no-op and which never completed a
handshake. -/
inductive Step : SrvState → SrvState → Prop where
  | handshake (s : SrvState) (c : Client) (h : s.phase c.conn = Phase.pre) :
      Step s ⟨s.reg ++ [c],
              fun k => if k = c.conn then Phase.active else s.phase k,
              s.handshakes + 1, s.teardowns⟩
  | teardown (s : SrvState) (conn : Nat) (h : s.phase conn = Phase.active) :
      Step s ⟨deregister conn s.reg,
              fun k => if k = conn then Phase.done else s.phase k,
              s.handshakes, s.teardowns + 1⟩
  | abort (s : SrvState) (conn : Nat) (h : s.phase conn = Phase.pre) :
      Step s ⟨deregister conn s.reg,
              fun k => if k = conn then Phase.done else s.phase k,
              s.handshakes, s.teardowns⟩

/-- States reachable from server start by any interleaving of events. -/
inductive Reachable : SrvState → Prop where
  | init : Reachable initState
  | step {s t : SrvState} : Reachable s → Step s t → Reachable t

/-! ## Helper lemmas -/

theorem deregister_of_not_mem (conn : Nat) (cs : List Client)
    (h : ∀ c ∈ cs, c.conn ≠ conn) : deregister conn cs = cs := by
  unfold deregister
  refine List.filter_eq_self.mpr ?_
  intro c hc
  simpa using h c hc

theorem mem_deregister {conn : Nat} {cs : List Client} {c : Client} :
    c ∈ deregister conn cs ↔ c ∈ cs ∧ c.conn ≠ conn := by
  unfold deregister
  simp [List.mem_filter]

theorem deregister_deregister (conn : Nat) (cs : List Client) :
    deregister conn (deregister conn cs) = deregister conn cs :=
  deregister_of_not_mem conn (deregister conn cs)
    (fun _ hc => (mem_deregister.mp hc).2)

theorem broadcast_conns (cs : List Client) (message : String) (S : Nat)
    (net : Nat → SendResult) :
    (broadcast cs message (some S) net).map Attempt.conn =
      (cs.filter (fun c => decide (c.conn ≠ S))).map Client.conn := by
  induction cs with
  | nil => rfl
  | cons c rest ih =>
      by_cases h : c.conn = S
      · simp [broadcast, h, List.filter_cons, ih]
      · simp [broadcast, h, List.filter_cons, ih]

theorem broadcast_bytes (cs : List Client) (message : String) (ex : Option Nat)
    (net : Nat → SendResult) :
    ∀ a ∈ broadcast cs message ex net, a.bytes = message ++ "\n" := by
  induction cs with
  | nil => simp [broadcast]
  | cons c rest ih =>
      by_cases h : some c.conn = ex
      · simpa [broadcast, h] using ih
      · intro a ha
        rcases List.mem_cons.mp (by simpa [broadcast, h] using ha) with rfl | hmem
        · rfl
        · exact ih a hmem

/-! ## Claim theorems -/

/-- C1: for every clients list, message, excluded session S and network
oracle, broadcast writes no bytes to S, attempts a write to every other
currently registered session, performs the same attempt sequence whatever
sends fail (a failure is swallowed and does not abort delivery to the
remaining recipients), and leaves the registry unchanged. -/
theorem broadcast_excludes_and_attempts_all (cs : List Client) (message : String)
    (S : Nat) (net : Nat → SendResult) :
    (∀ a ∈ broadcast cs message (some S) net, a.conn ≠ S) ∧
    (∀ c ∈ cs, c.conn ≠ S →
        c.conn ∈ (broadcast cs message (some S) net).map Attempt.conn) ∧
    ((broadcast cs message (some S) net).map Attempt.conn =
        (cs.filter (fun c => decide (c.conn ≠ S))).map Client.conn) ∧
    (broadcastST cs message (some S) net).1 = cs := by
  refine ⟨?_, ?_, broadcast_conns cs message S net, rfl⟩
  · intro a ha
    have hm : a.conn ∈ (broadcast cs message (some S) net).map Attempt.conn :=
      List.mem_map_of_mem _ ha
    rw [broadcast_conns] at hm
    rcases List.mem_map.mp hm with ⟨c, hc, hcc⟩
    rcases List.mem_filter.mp hc with ⟨_, hdec⟩
    rw [← hcc]
    simpa using hdec
  · intro c hc hne
    rw [broadcast_conns]
    exact List.mem_map_of_mem _ (List.mem_filter.mpr ⟨hc, by simpa using hne⟩)

/-- Witness for C1 on a concrete registry with a failing network: session 1
is excluded and session 2 still receives an attempt. -/
theorem broadcast_excludes_and_attempts_all_witness :
    (∀ a ∈ broadcast [⟨1, "a"⟩, ⟨2, "b"⟩] "hi" (some 1) (fun _ => SendResult.err),
        a.conn ≠ 1) ∧
    2 ∈ (broadcast [⟨1, "a"⟩, ⟨2, "b"⟩] "hi" (some 1)
        (fun _ => SendResult.err)).map Attempt.conn :=
  ⟨(broadcast_excludes_and_attempts_all [⟨1, "a"⟩, ⟨2, "b"⟩] "hi" 1
      (fun _ => SendResult.err)).1,
   (broadcast_excludes_and_attempts_all [⟨1, "a"⟩, ⟨2, "b"⟩] "hi" 1
      (fun _ => SendResult.err)).2.1 ⟨2, "b"⟩ (by decide) (by decide)⟩

/-- C4 counterexample: with one registered recipient and the join notice for
user bob, the delivered bytes end in two newlines (broadcast appends a
newline to a notice that already carries one), so they differ from the
claimed verbatim format. -/
theorem notice_bytes_counterexample :
    (broadcast [⟨1, "alice"⟩] (joinMsg "[12:00:00]" "bob") (some 2)
        (fun _ => SendResult.ok)).map Attempt.bytes =
      ["[12:00:00] bob has joined the chat!\n\n"] ∧
    "[12:00:00] bob has joined the chat!\n\n" ≠
      "[12:00:00] bob has joined the chat!\n" := by
  refine ⟨?_, by decide⟩
  decide

/-- C4 amended: the bytes delivered to each recipient for a join or
departure event are the spec formats with exactly one extra trailing
newline appended by broadcast. -/
theorem notice_bytes_amended (cs : List Client) (ts u : String) (ex : Option Nat)
    (net : Nat → SendResult) :
    (∀ a ∈ broadcast cs (joinMsg ts u) ex net,
        a.bytes = ts ++ " " ++ u ++ " has joined the chat!\n\n") ∧
    (∀ a ∈ broadcast cs (leaveMsg ts u) ex net,
        a.bytes = ts ++ " " ++ u ++ " has left the chat.\n\n") := by
  constructor
  · intro a ha
    rw [broadcast_bytes cs (joinMsg ts u) ex net a ha]
    unfold joinMsg
    rw [String.append_assoc]
    rfl
  · intro a ha
    rw [broadcast_bytes cs (leaveMsg ts u) ex net a ha]
    unfold leaveMsg
    rw [String.append_assoc]
    rfl

/-- Witness for C4 amended at a concrete broadcast. -/
theorem notice_bytes_amended_witness :
    ∀ a ∈ broadcast [⟨1, "alice"⟩] (joinMsg "[12:00:00]" "bob") none
        (fun _ => SendResult.ok),
      a.bytes = "[12:00:00]" ++ " " ++ "bob" ++ " has joined the chat!\n\n" :=
  (notice_bytes_amended [⟨1, "alice"⟩] "[12:00:00]" "bob" none
    (fun _ => SendResult.ok)).1

/-- C8: registry removal is idempotent: removing an absent session leaves
the clients list unchanged, and removing a session twice yields the same
list as removing it once. -/
theorem deregister_idempotent :
    (∀ (cs : List Client) (s : Nat), (∀ c ∈ cs, c.conn ≠ s) →
        deregister s cs = cs) ∧
    (∀ (cs : List Client) (s : Nat),
        deregister s (deregister s cs) = deregister s cs) :=
  ⟨fun cs s h => deregister_of_not_mem s cs h,
   fun cs s => deregister_deregister s cs⟩

/-- Witness for C8 on concrete registries. -/
theorem deregister_idempotent_witness :
    deregister 2 [⟨1, "a"⟩] = [⟨1, "a"⟩] ∧
    deregister 1 (deregister 1 [⟨1, "a"⟩, ⟨2, "b"⟩]) =
      deregister 1 [⟨1, "a"⟩, ⟨2, "b"⟩] :=
  ⟨deregister_idempotent.1 [⟨1, "a"⟩] 2 (by decide),
   deregister_idempotent.2 [⟨1, "a"⟩, ⟨2, "b"⟩] 1⟩

/-- C6: the client sender loop treats a line whose lowercased form is a
termination keyword by clearing the running flag and stopping with no
sends at all; any other line with non-empty stripped content is handed to
sendall verbatim (no added newline, no added formatting) and the loop
continues on success; a send failure clears the flag and stops the loop
with no further sends. -/
theorem send_messages_spec (m : String) (rest : List String)
    (net : String → SendResult) :
    (terminationKeywords.contains (pyLower m) = true →
        send_messages (m :: rest) net = ([], false)) ∧
    (terminationKeywords.contains (pyLower m) = false → pyStrip m ≠ "" →
        net m = SendResult.ok →
        send_messages (m :: rest) net =
          ((m, SendResult.ok) :: (send_messages rest net).1,
            (send_messages rest net).2)) ∧
    (terminationKeywords.contains (pyLower m) = false → pyStrip m ≠ "" →
        net m = SendResult.err →
        send_messages (m :: rest) net = ([(m, SendResult.err)], false)) := by
  refine ⟨?_, ?_, ?_⟩
  · intro h1
    have h1m : pyLower m ∈ terminationKeywords := by simpa using h1
    simp [send_messages, h1m]
  · intro h1 h2 h3
    have h1m : pyLower m ∉ terminationKeywords := by simpa using h1
    simp [send_messages, h1m, h2, h3]
  · intro h1 h2 h3
    have h1m : pyLower m ∉ terminationKeywords := by simpa using h1
    simp [send_messages, h1m, h2, h3]

/-- Witness for C6: quit stops with no sends, hello is sent verbatim, and a
failing send stops the loop. -/
theorem send_messages_spec_witness :
    send_messages ["quit", "hello"] (fun _ => SendResult.ok) = ([], false) ∧
    send_messages ["hello"] (fun _ => SendResult.ok) =
      ([("hello", SendResult.ok)], true) ∧
    send_messages ["bye", "more"] (fun _ => SendResult.err) =
      ([("bye", SendResult.err)], false) := by
  refine ⟨(send_messages_spec "quit" ["hello"] (fun _ => SendResult.ok)).1 (by decide),
    ?_,
    (send_messages_spec "bye" ["more"] (fun _ => SendResult.err)).2.2
      (by decide) (by decide) rfl⟩
  have h := (send_messages_spec "hello" [] (fun _ => SendResult.ok)).2.1
    (by decide) (by decide) rfl
  simpa [send_messages] using h

/-- C10: keyword matching uses the lowercased line with no whitespace
trimming, so a line that strips to a termination keyword but carries
surrounding whitespace is not treated as a termination command: it is sent
to the server verbatim and the loop continues. -/
theorem send_messages_keywords_untrimmed (m : String) (rest : List String)
    (net : String → SendResult)
    (h1 : terminationKeywords.contains (pyLower m) = false)
    (h2 : terminationKeywords.contains (pyLower (pyStrip m)) = true)
    (h3 : net m = SendResult.ok) :
    send_messages (m :: rest) net =
      ((m, SendResult.ok) :: (send_messages rest net).1,
        (send_messages rest net).2) := by
  have hne : pyStrip m ≠ "" := by
    intro he
    rw [he] at h2
    exact absurd h2 (by decide)
  have h1m : pyLower m ∉ terminationKeywords := by simpa using h1
  simp [send_messages, h1m, hne, h3]

/-- Witness for C10 on the line quit preceded by a space: it is sent as an
ordinary chat message. -/
theorem send_messages_keywords_untrimmed_witness :
    send_messages [" quit"] (fun _ => SendResult.ok) =
      ([(" quit", SendResult.ok)], true) := by
  have h := send_messages_keywords_untrimmed " quit" [] (fun _ => SendResult.ok)
    (by decide) (by decide) rfl
  simpa [send_messages] using h

theorem activeLoop_actions (conn : Nat) (u ts : String) (chunks : List RecvResult) :
    ∀ a ∈ (activeLoop conn u ts chunks).1,
      a = Action.logDecodeError ∨
        ∃ b, a = Action.broadcastMsg (relayMsg ts u b) (some conn) := by
  induction chunks with
  | nil => simp [activeLoop]
  | cons ch rest ih =>
      cases ch with
      | closed => simp [activeLoop]
      | data s =>
          by_cases h0 : s = ""
          · simp [activeLoop, h0]
          · by_cases h1 : pyStrip s = ""
            · simpa [activeLoop, h0, h1] using ih
            · intro a ha
              rcases List.mem_cons.mp (by simpa [activeLoop, h0, h1] using ha) with
                rfl | hmem
              · exact Or.inr ⟨pyStrip s, rfl⟩
              · exact ih a hmem
      | decodeErr =>
          intro a ha
          rcases List.mem_cons.mp (by simpa [activeLoop] using ha) with rfl | hmem
          · exact Or.inl rfl
          · exact ih a hmem
      | reset => simp [activeLoop]
      | aborted => simp [activeLoop]
      | osErr => simp [activeLoop]
      | otherErr => simp [activeLoop]

/-- C7: in the ACTIVE receive loop, an empty read ends the loop with a
graceful close and ignores any later chunks; a chunk whose stripped form
is empty is skipped with no broadcast; a chunk failing UTF-8 decoding is
logged and the loop continues; and a chunk with non-empty stripped content
is broadcast as the timestamped relay line excluding the sending
session. -/
theorem activeLoop_spec (conn : Nat) (u ts : String) (rest : List RecvResult) :
    (activeLoop conn u ts (RecvResult.closed :: rest) =
        ([], some ExitReason.gracefulClose)) ∧
    (∀ s, s ≠ "" → pyStrip s = "" →
        activeLoop conn u ts (RecvResult.data s :: rest) =
          activeLoop conn u ts rest) ∧
    (activeLoop conn u ts (RecvResult.decodeErr :: rest) =
        (Action.logDecodeError :: (activeLoop conn u ts rest).1,
          (activeLoop conn u ts rest).2)) ∧
    (∀ s, pyStrip s ≠ "" →
        activeLoop conn u ts (RecvResult.data s :: rest) =
          (Action.broadcastMsg (relayMsg ts u (pyStrip s)) (some conn) ::
              (activeLoop conn u ts rest).1,
            (activeLoop conn u ts rest).2)) := by
  refine ⟨rfl, ?_, rfl, ?_⟩
  · intro s h0 h1
    simp [activeLoop, h0, h1]
  · intro s hs
    have h0 : s ≠ "" := by
      intro he
      rw [he] at hs
      exact hs (by decide)
    simp [activeLoop, h0, hs]

/-- Witness for C7 on concrete chunks: a whitespace-only chunk is skipped
and the chunk hi is relayed. -/
theorem activeLoop_spec_witness :
    activeLoop 1 "bob" "[12:00:00]" [RecvResult.data " "] = ([], none) ∧
    activeLoop 1 "bob" "[12:00:00]" [RecvResult.data "hi\n"] =
      ([Action.broadcastMsg (relayMsg "[12:00:00]" "bob" "hi") (some 1)], none) := by
  constructor
  · have h := (activeLoop_spec 1 "bob" "[12:00:00]" []).2.1 " " (by decide) (by decide)
    simpa [activeLoop] using h
  · have h := (activeLoop_spec 1 "bob" "[12:00:00]" []).2.2.2 "hi\n" (by decide)
    have he : pyStrip "hi\n" = "hi" := by decide
    rw [he] at h
    simpa [activeLoop] using h

theorem handshakeUsername_none {sc : Script} (hc : sc.usernameRecv ≠ RecvResult.closed)
    (hd : ∀ s, sc.usernameRecv ≠ RecvResult.data s) (peerPort : Nat) :
    handshakeUsername sc peerPort = none := by
  unfold handshakeUsername
  cases hrec : sc.usernameRecv with
  | closed => exact absurd hrec hc
  | data s => exact absurd hrec (hd s)
  | decodeErr => rfl
  | reset => rfl
  | aborted => rfl
  | osErr => rfl
  | otherErr => rfl

theorem handle_client_no_username (conn peerPort : Nat) (ts : String) (sc : Script)
    (h : sc.promptSendOk = false ∨ handshakeUsername sc peerPort = none) :
    handle_client conn peerPort ts sc =
      ⟨[Action.deregisterSelf conn, Action.closeSocket conn], none, true⟩ := by
  rcases h with h | hn
  · simp [handle_client, h, finalize]
  · by_cases hp : sc.promptSendOk
    · simp [handle_client, hp, hn, finalize]
    · simp [handle_client, hp, finalize]

/-- C9: when the handler fails before a username is assigned (the prompt
sendall raises, or the username recv raises a transport or decode error
before the fallback assignment), the finalization still runs the registry
removal and the socket close but broadcasts nothing: in particular no
departure notice, and the session was never registered. -/
theorem early_failure_no_departure (conn peerPort : Nat) (ts : String) (sc : Script)
    (h : sc.promptSendOk = false ∨
      (sc.usernameRecv ≠ RecvResult.closed ∧
        ∀ s, sc.usernameRecv ≠ RecvResult.data s)) :
    (handle_client conn peerPort ts sc).trace =
      [Action.deregisterSelf conn, Action.closeSocket conn] ∧
    (handle_client conn peerPort ts sc).username = none ∧
    (handle_client conn peerPort ts sc).finished = true ∧
    (∀ msg ex, Action.broadcastMsg msg ex ∉ (handle_client conn peerPort ts sc).trace) ∧
    (∀ u, Action.register conn u ∉ (handle_client conn peerPort ts sc).trace) := by
  have htrace : handle_client conn peerPort ts sc =
      ⟨[Action.deregisterSelf conn, Action.closeSocket conn], none, true⟩ := by
    rcases h with h | ⟨hc, hd⟩
    · exact handle_client_no_username conn peerPort ts sc (Or.inl h)
    · exact handle_client_no_username conn peerPort ts sc
        (Or.inr (handshakeUsername_none hc hd peerPort))
  rw [htrace]
  refine ⟨rfl, rfl, rfl, ?_, ?_⟩
  · intro msg ex hmem
    simp at hmem
  · intro u hmem
    simp at hmem

/-- Witness for C9: a connection reset during the username recv leaves a
trace with only the removal and the close. -/
theorem early_failure_no_departure_witness :
    (handle_client 1 40000 "[12:00:00]" ⟨true, RecvResult.reset, true, []⟩).trace =
      [Action.deregisterSelf 1, Action.closeSocket 1] ∧
    (handle_client 1 40000 "[12:00:00]" ⟨true, RecvResult.reset, true, []⟩).username =
      none :=
  ⟨(early_failure_no_departure 1 40000 "[12:00:00]" ⟨true, RecvResult.reset, true, []⟩
      (Or.inr ⟨by decide, fun s => by simp⟩)).1,
   (early_failure_no_departure 1 40000 "[12:00:00]" ⟨true, RecvResult.reset, true, []⟩
      (Or.inr ⟨by decide, fun s => by simp⟩)).2.1⟩

theorem handshakeDone_trace_of_some (conn : Nat) (ts u : String) (sc : Script)
    (h4 : sc.welcomeSendOk = true) (r : ExitReason)
    (hq : (activeLoop conn u ts sc.chunks).2 = some r) :
    handshakeDone conn ts u sc =
      ⟨[Action.register conn u, Action.broadcastMsg (joinMsg ts u) (some conn)] ++
          [Action.sendWelcome conn (welcomeMsg ts u)] ++
          (activeLoop conn u ts sc.chunks).1 ++ finalize conn ts (some u),
        some u, true⟩ := by
  unfold handshakeDone
  rw [h4]
  simp [hq]

theorem handshakeDone_trace_of_none (conn : Nat) (ts u : String) (sc : Script)
    (h4 : sc.welcomeSendOk = true)
    (hq : (activeLoop conn u ts sc.chunks).2 = none) :
    handshakeDone conn ts u sc =
      ⟨[Action.register conn u, Action.broadcastMsg (joinMsg ts u) (some conn)] ++
          [Action.sendWelcome conn (welcomeMsg ts u)] ++
          (activeLoop conn u ts sc.chunks).1,
        some u, false⟩ := by
  unfold handshakeDone
  rw [h4]
  simp [hq]

theorem handshakeDone_broadcasts (conn : Nat) (ts u : String) (sc : Script)
    (h4 : sc.welcomeSendOk = true) :
    ∀ msg ex, Action.broadcastMsg msg ex ∈ (handshakeDone conn ts u sc).trace →
      msg = joinMsg ts u ∨ msg = leaveMsg ts u ∨ ∃ b, msg = relayMsg ts u b := by
  intro msg ex hmem
  have hloopcase : ∀ a, a ∈ (activeLoop conn u ts sc.chunks).1 →
      a = Action.broadcastMsg msg ex →
      msg = joinMsg ts u ∨ msg = leaveMsg ts u ∨ ∃ b, msg = relayMsg ts u b := by
    intro a ha heq
    rcases activeLoop_actions conn u ts sc.chunks a ha with hlog | ⟨b, hb⟩
    · rw [heq] at hlog
      exact absurd hlog (by simp)
    · rw [heq] at hb
      rcases Action.broadcastMsg.inj hb with ⟨hb1, _⟩
      exact Or.inr (Or.inr ⟨b, hb1⟩)
  cases hq : (activeLoop conn u ts sc.chunks).2 with
  | some r =>
      rw [handshakeDone_trace_of_some conn ts u sc h4 r hq] at hmem
      rcases List.mem_append.mp hmem with hmem1 | hfin
      · rcases List.mem_append.mp hmem1 with hmem2 | hloop
        · rcases List.mem_append.mp hmem2 with hpre | hwelc
          · simp at hpre
            exact Or.inl hpre.1
          · simp at hwelc
        · exact hloopcase _ hloop rfl
      · simp [finalize] at hfin
        exact Or.inr (Or.inl hfin.1)
  | none =>
      rw [handshakeDone_trace_of_none conn ts u sc h4 hq] at hmem
      rcases List.mem_append.mp hmem with hmem2 | hloop
      · rcases List.mem_append.mp hmem2 with hpre | hwelc
        · simp at hpre
          exact Or.inl hpre.1
        · simp at hwelc
      · exact hloopcase _ hloop rfl

theorem handshakeDone_welcome (conn : Nat) (ts u : String) (sc : Script)
    (h4 : sc.welcomeSendOk = true) :
    Action.sendWelcome conn (welcomeMsg ts u) ∈ (handshakeDone conn ts u sc).trace := by
  cases hq : (activeLoop conn u ts sc.chunks).2 with
  | some r =>
      rw [handshakeDone_trace_of_some conn ts u sc h4 r hq]
      simp
  | none =>
      rw [handshakeDone_trace_of_none conn ts u sc h4 hq]
      simp

/-- C5: a client whose submitted username strips to empty gets the guest
name derived from the peer's ephemeral port; that name is non-empty, is
the session's display name, appears in the welcome line sent to the
client, and every broadcast formatted for this session (the join and
departure notices and every relay line) carries exactly that name. -/
theorem guest_username_spec (conn peerPort : Nat) (ts raw : String) (sc : Script)
    (h1 : sc.promptSendOk = true)
    (h2 : sc.usernameRecv = RecvResult.data raw)
    (h3 : pyStrip raw = "")
    (h4 : sc.welcomeSendOk = true) :
    ("Guest_" ++ toString peerPort ≠ "") ∧
    (handle_client conn peerPort ts sc).username =
      some ("Guest_" ++ toString peerPort) ∧
    Action.sendWelcome conn (welcomeMsg ts ("Guest_" ++ toString peerPort)) ∈
      (handle_client conn peerPort ts sc).trace ∧
    (∀ msg ex, Action.broadcastMsg msg ex ∈ (handle_client conn peerPort ts sc).trace →
        msg = joinMsg ts ("Guest_" ++ toString peerPort) ∨
        msg = leaveMsg ts ("Guest_" ++ toString peerPort) ∨
        ∃ b, msg = relayMsg ts ("Guest_" ++ toString peerPort) b) := by
  have hne : "Guest_" ++ toString peerPort ≠ "" := by
    intro he
    have h5 := congrArg String.data he
    simp at h5
  have hu : handshakeUsername sc peerPort = some ("Guest_" ++ toString peerPort) := by
    simp [handshakeUsername, h2, chooseUsername, h3]
  have hrun : handle_client conn peerPort ts sc =
      handshakeDone conn ts ("Guest_" ++ toString peerPort) sc := by
    simp [handle_client, h1, hu]
  rw [hrun]
  refine ⟨hne, ?_, handshakeDone_welcome conn ts _ sc h4,
    handshakeDone_broadcasts conn ts _ sc h4⟩
  cases hq : (activeLoop conn ("Guest_" ++ toString peerPort) ts sc.chunks).2 with
  | some r => rw [handshakeDone_trace_of_some conn ts _ sc h4 r hq]
  | none => rw [handshakeDone_trace_of_none conn ts _ sc h4 hq]

/-- Witness for C5: the username bytes that strip to empty yield the guest
name Guest_40000, echoed in the welcome line. -/
theorem guest_username_spec_witness :
    (handle_client 1 40000 "[12:00:00]" ⟨true, RecvResult.data " \n", true, []⟩).username =
      some "Guest_40000" ∧
    Action.sendWelcome 1 (welcomeMsg "[12:00:00]" "Guest_40000") ∈
      (handle_client 1 40000 "[12:00:00]" ⟨true, RecvResult.data " \n", true, []⟩).trace := by
  have h := guest_username_spec 1 40000 "[12:00:00]" " \n"
    ⟨true, RecvResult.data " \n", true, []⟩ rfl rfl (by decide) rfl
  have he : ("Guest_" ++ toString 40000 : String) = "Guest_40000" := by decide
  rw [he] at h
  exact ⟨h.2.1, h.2.2.1⟩

theorem broadcast_none_conns (cs : List Client) (message : String)
    (net : Nat → SendResult) :
    (broadcast cs message none net).map Attempt.conn = cs.map Client.conn := by
  induction cs with
  | nil => rfl
  | cons c rest ih => simp [broadcast, ih]

theorem count_deregisterSelf_activeLoop (conn : Nat) (u ts : String)
    (chunks : List RecvResult) :
    (activeLoop conn u ts chunks).1.count (Action.deregisterSelf conn) = 0 := by
  refine List.count_eq_zero.mpr ?_
  intro hmem
  rcases activeLoop_actions conn u ts chunks _ hmem with h | ⟨b, hb⟩
  · exact absurd h (by simp)
  · exact absurd hb (by simp)

theorem count_closeSocket_activeLoop (conn : Nat) (u ts : String)
    (chunks : List RecvResult) :
    (activeLoop conn u ts chunks).1.count (Action.closeSocket conn) = 0 := by
  refine List.count_eq_zero.mpr ?_
  intro hmem
  rcases activeLoop_actions conn u ts chunks _ hmem with h | ⟨b, hb⟩
  · exact absurd h (by simp)
  · exact absurd hb (by simp)

theorem count_leaveBroadcast_activeLoop (conn : Nat) (u ts m : String)
    (chunks : List RecvResult) :
    (activeLoop conn u ts chunks).1.count (Action.broadcastMsg m none) = 0 := by
  refine List.count_eq_zero.mpr ?_
  intro hmem
  rcases activeLoop_actions conn u ts chunks _ hmem with h | ⟨b, hb⟩
  · exact absurd h (by simp)
  · exact absurd hb (by simp)

/-- C3 counterexample: a decode failure during the handshake ends the
session (the claim lists it among the covered exit conditions) and the
cleanup deregisters and closes, but no departure notice is broadcast at
all, contradicting the claimed departure broadcast on every such exit. -/
theorem cleanup_counterexample :
    ((handle_client 1 40000 "[12:00:00]"
        ⟨true, RecvResult.decodeErr, true, []⟩).trace =
      [Action.deregisterSelf 1, Action.closeSocket 1]) ∧
    (∀ msg ex, Action.broadcastMsg msg ex ∉
      (handle_client 1 40000 "[12:00:00]"
        ⟨true, RecvResult.decodeErr, true, []⟩).trace) := by
  have h := handle_client_no_username 1 40000 "[12:00:00]"
    ⟨true, RecvResult.decodeErr, true, []⟩ (Or.inr rfl)
  rw [h]
  refine ⟨rfl, ?_⟩
  intro msg ex hmem
  simp at hmem

/-- C3 corrected: for every exit of the ACTIVE receive loop (graceful
close, reset, abort, or generic I/O error) the finalization runs exactly
once: one deregistration, one departure broadcast with no exclusion
(whose delivery attempts therefore cover every registered session), and
one socket close; for a decode failure during the handshake the
finalization still runs exactly once (one deregistration, no-op on the
registry, and one close) but no departure notice is broadcast, the
username being unassigned. -/
theorem cleanup_exactly_once (conn peerPort : Nat) (ts u : String) (sc : Script)
    (h1 : sc.promptSendOk = true)
    (h2 : handshakeUsername sc peerPort = some u)
    (h3 : sc.welcomeSendOk = true)
    (h4 : (activeLoop conn u ts sc.chunks).2.isSome = true) :
    ((handle_client conn peerPort ts sc).finished = true) ∧
    ((handle_client conn peerPort ts sc).trace.count
        (Action.deregisterSelf conn) = 1) ∧
    ((handle_client conn peerPort ts sc).trace.count
        (Action.broadcastMsg (leaveMsg ts u) none) = 1) ∧
    ((handle_client conn peerPort ts sc).trace.count
        (Action.closeSocket conn) = 1) ∧
    (∀ (cs : List Client) (net : Nat → SendResult),
        (broadcast cs (leaveMsg ts u) none net).map Attempt.conn =
          cs.map Client.conn) ∧
    (∀ sc2 : Script, sc2.usernameRecv = RecvResult.decodeErr →
        (handle_client conn peerPort ts sc2).trace.count
            (Action.deregisterSelf conn) = 1 ∧
        (handle_client conn peerPort ts sc2).trace.count
            (Action.closeSocket conn) = 1 ∧
        (∀ msg ex, Action.broadcastMsg msg ex ∉
            (handle_client conn peerPort ts sc2).trace)) := by
  rcases Option.isSome_iff_exists.mp h4 with ⟨r, hr⟩
  have hrun : handle_client conn peerPort ts sc = handshakeDone conn ts u sc := by
    simp [handle_client, h1, h2]
  have htr := handshakeDone_trace_of_some conn ts u sc h3 r hr
  refine ⟨?_, ?_, ?_, ?_, ?_, ?_⟩
  · rw [hrun, htr]
  · rw [hrun, htr]
    simp [List.count_append, finalize, List.count_cons,
      count_deregisterSelf_activeLoop]
  · rw [hrun, htr]
    simp [List.count_append, finalize, List.count_cons,
      count_leaveBroadcast_activeLoop]
  · rw [hrun, htr]
    simp [List.count_append, finalize, List.count_cons,
      count_closeSocket_activeLoop]
  · intro cs net
    exact broadcast_none_conns cs (leaveMsg ts u) net
  · intro sc2 hdec
    have hn : handshakeUsername sc2 peerPort = none := by
      unfold handshakeUsername
      rw [hdec]
    rw [handle_client_no_username conn peerPort ts sc2 (Or.inr hn)]
    refine ⟨by simp [List.count_cons], by simp [List.count_cons], ?_⟩
    intro msg ex hmem
    simp at hmem

/-- Witness for C3 corrected: a session whose peer sends bob and then
closes gets exactly one deregistration and one departure broadcast. -/
theorem cleanup_exactly_once_witness :
    (handle_client 1 40000 "[12:00:00]"
        ⟨true, RecvResult.data "bob", true, [RecvResult.closed]⟩).trace.count
      (Action.deregisterSelf 1) = 1 ∧
    (handle_client 1 40000 "[12:00:00]"
        ⟨true, RecvResult.data "bob", true, [RecvResult.closed]⟩).trace.count
      (Action.broadcastMsg (leaveMsg "[12:00:00]" "bob") none) = 1 :=
  ⟨(cleanup_exactly_once 1 40000 "[12:00:00]" "bob"
      ⟨true, RecvResult.data "bob", true, [RecvResult.closed]⟩
      rfl (by decide) rfl (by decide)).2.1,
   (cleanup_exactly_once 1 40000 "[12:00:00]" "bob"
      ⟨true, RecvResult.data "bob", true, [RecvResult.closed]⟩
      rfl (by decide) rfl (by decide)).2.2.1⟩

theorem deregister_not_conn {conn : Nat} {cs : List Client} :
    ∀ c ∈ deregister conn cs, c.conn ≠ conn :=
  fun _ hc => (mem_deregister.mp hc).2

theorem deregister_length {conn : Nat} {cs : List Client}
    (hnd : (cs.map Client.conn).Nodup) (hk : ∃ c ∈ cs, c.conn = conn) :
    (deregister conn cs).length + 1 = cs.length := by
  induction cs with
  | nil =>
      rcases hk with ⟨c, hc, _⟩
      exact absurd hc (List.not_mem_nil c)
  | cons c rest ih =>
      rw [List.map_cons, List.nodup_cons] at hnd
      by_cases h : c.conn = conn
      · have h1 : deregister conn (c :: rest) = deregister conn rest := by
          simp [deregister, List.filter_cons, h]
        have h2 : deregister conn rest = rest := by
          apply deregister_of_not_mem
          intro x hx hxc
          apply hnd.1
          rw [h, ← hxc]
          exact List.mem_map_of_mem Client.conn hx
        rw [h1, h2]
        simp
      · have h1 : deregister conn (c :: rest) = c :: deregister conn rest := by
          simp [deregister, List.filter_cons, h]
        rcases hk with ⟨x, hx, hxc⟩
        rcases List.mem_cons.mp hx with rfl | hxm
        · exact absurd hxc h
        · have := ih hnd.2 ⟨x, hxm, hxc⟩
          rw [h1]
          simp only [List.length_cons]
          omega

/-- The full inductive invariant: the registry content mirrors the handler
phases, the length accounting holds, and connections are unique. -/
def Inv (s : SrvState) : Prop :=
  (∀ k, (∃ c ∈ s.reg, c.conn = k) ↔ s.phase k = Phase.active) ∧
  s.reg.length + s.teardowns = s.handshakes ∧
  (s.reg.map Client.conn).Nodup

theorem inv_init : Inv initState := by
  refine ⟨?_, rfl, List.nodup_nil⟩
  intro k
  constructor
  · rintro ⟨c, hc, _⟩
    exact absurd hc (List.not_mem_nil c)
  · intro h
    simp [initState] at h

theorem inv_step {s t : SrvState} (hi : Inv s) (hs : Step s t) : Inv t := by
  obtain ⟨hiff, hlen, hnd⟩ := hi
  cases hs with
  | handshake c h =>
      have hnotin : c.conn ∉ s.reg.map Client.conn := by
        intro hin
        rcases List.mem_map.mp hin with ⟨x, hx, hxc⟩
        have hact := (hiff c.conn).mp ⟨x, hx, hxc⟩
        rw [h] at hact
        exact Phase.noConfusion hact
      refine ⟨?_, ?_, ?_⟩
      · intro k
        by_cases hk : k = c.conn
        · subst hk
          constructor
          · intro _
            simp
          · intro _
            exact ⟨c, List.mem_append.mpr (Or.inr (by simp)), rfl⟩
        · constructor
          · rintro ⟨x, hx, hxc⟩
            rcases List.mem_append.mp hx with hx1 | hx2
            · have := (hiff k).mp ⟨x, hx1, hxc⟩
              simpa [hk] using this
            · have hxe : x = c := by simpa using hx2
              subst hxe
              exact absurd hxc.symm hk
          · intro hph
            simp only [hk, if_false] at hph
            rcases (hiff k).mpr hph with ⟨x, hx1, hxc⟩
            exact ⟨x, List.mem_append.mpr (Or.inl hx1), hxc⟩
      · simp only [List.length_append, List.length_singleton]
        omega
      · rw [List.map_append]
        refine List.Nodup.append hnd (List.nodup_singleton _) ?_
        intro a ha hb
        simp at hb
        subst hb
        exact hnotin ha
  | teardown conn h =>
      have hin : ∃ c ∈ s.reg, c.conn = conn := (hiff conn).mpr h
      refine ⟨?_, ?_, ?_⟩
      · intro k
        by_cases hk : k = conn
        · subst hk
          constructor
          · rintro ⟨x, hx, hxc⟩
            exact absurd hxc (deregister_not_conn x hx)
          · intro hph
            simp at hph
        · constructor
          · rintro ⟨x, hx, hxc⟩
            have := (hiff k).mp ⟨x, (mem_deregister.mp hx).1, hxc⟩
            simpa [hk] using this
          · intro hph
            simp only [hk, if_false] at hph
            rcases (hiff k).mpr hph with ⟨x, hx1, hxc⟩
            refine ⟨x, mem_deregister.mpr ⟨hx1, ?_⟩, hxc⟩
            rw [hxc]
            exact hk
      · show (deregister conn s.reg).length + (s.teardowns + 1) = s.handshakes
        have := deregister_length hnd hin
        omega
      · exact hnd.sublist (List.Sublist.map Client.conn (List.filter_sublist s.reg))
  | abort conn h =>
      have hnotin : ¬∃ c ∈ s.reg, c.conn = conn := by
        intro hin
        have hact := (hiff conn).mp hin
        rw [h] at hact
        exact Phase.noConfusion hact
      have hder : deregister conn s.reg = s.reg :=
        deregister_of_not_mem conn s.reg (fun c hc hcc => hnotin ⟨c, hc, hcc⟩)
      refine ⟨?_, ?_, ?_⟩
      · intro k
        by_cases hk : k = conn
        · subst hk
          rw [hder]
          refine iff_of_false hnotin ?_
          intro hph
          simp at hph
        · rw [hder]
          constructor
          · rintro ⟨x, hx, hxc⟩
            have := (hiff k).mp ⟨x, hx, hxc⟩
            simpa [hk] using this
          · intro hph
            simp only [hk, if_false] at hph
            exact (hiff k).mpr hph
      · rw [hder]
        exact hlen
      · rw [hder]
        exact hnd

theorem reachable_inv {s : SrvState} (h : Reachable s) : Inv s := by
  induction h with
  | init => exact inv_init
  | step hr hst ih => exact inv_step ih hst

/-- C2: in every reachable server state — any interleaving of handshake
completions, teardowns and pre-registration aborts — a session is in the
clients list iff its handler is between handshake completion and teardown,
and the registry length equals the number of completed handshakes minus
the number of completed teardowns. -/
theorem registry_invariant (s : SrvState) (h : Reachable s) :
    (∀ k, (∃ c ∈ s.reg, c.conn = k) ↔ s.phase k = Phase.active) ∧
    s.reg.length = s.handshakes - s.teardowns := by
  have hi := reachable_inv h
  refine ⟨hi.1, ?_⟩
  have hlen := hi.2.1
  omega

/-- Witness for C2: the state after one completed handshake is reachable,
contains the registered session, and has length 1 = 1 - 0. -/
theorem registry_invariant_witness :
    (∃ c ∈ ([⟨1, "a"⟩] : List Client), c.conn = 1) ∧
    ([⟨1, "a"⟩] : List Client).length = 1 - 0 := by
  have hr : Reachable ⟨[⟨1, "a"⟩],
      fun k => if k = 1 then Phase.active else Phase.pre, 1, 0⟩ :=
    Reachable.step Reachable.init (Step.handshake initState ⟨1, "a"⟩ rfl)
  have h := registry_invariant _ hr
  exact ⟨(h.1 1).mpr (by simp), h.2⟩

end Chat
